import Mathlib

/-
Verification of the charge-scheduling / battery-simulation core of the
FoxESS cloud client (`src/foxesscloud/openapi.py`).

The Python code is shallowly embedded over `ℚ`: Python float arithmetic is
modelled as exact rational arithmetic; `int(x)` for `x ≥ 0` is `⌊x⌋`;
Python's `x % m` for `m > 0` is `x - m * ⌊x / m⌋`; Python's banker's
rounding `round` is modelled by `pyRound` below.  Fallible or optional
values are modelled with `Option`.
-/

/-- Python float modulus `x % m` (for `m > 0`): `x - m * ⌊x / m⌋`. -/
def pyMod (x m : ℚ) : ℚ := x - m * ⌊x / m⌋

/-- The common wrap-into-`[0,24)` idiom
`while h < 0: h += 24` / `while h >= 24: h -= 24`
(used in `round_time`, `hours_time` and `hour_in`); for rationals the two
loops terminate with `h - 24 * ⌊h / 24⌋`. -/
def wrap24 (h : ℚ) : ℚ := h - 24 * ⌊h / 24⌋

/-- Python `round(x)`: round half to even to an integer. -/
def pyRound (x : ℚ) : ℤ :=
  let f := ⌊x⌋
  if x - f < 1/2 then f
  else if 1/2 < x - f then f + 1
  else if f % 2 = 0 then f else f + 1

/-- Python `round(x, 2)`: round half to even at 2 decimal places. -/
def pyRound2 (x : ℚ) : ℚ := (pyRound (x * 100) : ℚ) / 100

/-- Embeds `round_time` (openapi.py:1371): wrap into `[0,24)` then round to
the nearest minute, `int(h) + int(60 * (h - int(h)) + 0.5) / 60`
(the operands are nonnegative, so Python `int` truncation is `⌊·⌋`). -/
def round_time (h : ℚ) : ℚ :=
  let h1 := wrap24 h
  (⌊h1⌋ : ℚ) + (⌊60 * (h1 - ⌊h1⌋) + 1/2⌋ : ℚ) / 60

/-- Two-digit zero-padded decimal rendering `f"{n:02}"` of `n < 100`. -/
def fmt02 (n : ℕ) : List Char := [Nat.digitChar (n / 10), Nat.digitChar (n % 10)]

/-- Embeds `time_hours` (openapi.py:1389) applied to a well-formed `"HH:MM"`
string with fields `hh`/`mm`: the parser appends `":00"` and returns
`sum(float(t) / x for x, t in zip([1, 60, 3600], t.split(":")))`. -/
def time_hoursHM (hh mm : ℕ) : ℚ := (hh : ℚ) / 1 + (mm : ℚ) / 60 + 0 / 3600

/-- Embeds `hours_time` (openapi.py:1403) with the default arguments used in
the round-trip (`ss=False, day=False, mm=True`, so `n = 5`): the wrapped
hour is formatted as `f"{int(h):02}:{int(h * 60 % 60):02}:{int(h * 3600 % 60):02}"`
and the first 5 characters are kept. -/
def hours_timeChars (h : ℚ) : List Char :=
  let h1 := wrap24 h
  (fmt02 (⌊h1⌋).toNat ++ ':' :: fmt02 (⌊pyMod (h1 * 60) 60⌋).toNat
    ++ ':' :: fmt02 (⌊pyMod (h1 * 3600) 60⌋).toNat).take 5

/-- A charge period record; `start`/`endt` model the `'start'`/`'end'` keys
(either may be `None`). -/
structure Period where
  start : Option ℚ
  endt : Option ℚ

/-- Embeds `hour_in` (openapi.py:1420): `False` for a missing or degenerate
period, otherwise wrap `h` into `[0,24)` and test
`h >= s or h < e` when `s > e`, else `h >= s and h < e`. -/
def hour_in (h : ℚ) (period : Option Period) : Bool :=
  match period with
  | none => false
  | some p =>
    match p.start, p.endt with
    | some s, some e =>
      if s = e then false
      else
        let h1 := wrap24 h
        if s > e then decide (h1 ≥ s ∨ h1 < e)
        else decide (h1 ≥ s ∧ h1 < e)
    | _, _ => false

/-- Embeds `timed_list` (openapi.py:1791): rotate a daily list so index 0 is
`int(hour_now)`, `data[h:] + data[:h]`, then if `run_time` is given take the
first `run_time` entries of the doubled list `(data1 + data1)[:run_time]`. -/
def timed_list (data : List ℚ) (hour_now : ℚ) (run_time : Option ℕ) : List ℚ :=
  let h := (⌊hour_now⌋).toNat
  let data1 := data.drop h ++ data.take h
  match run_time with
  | none => data1
  | some rt => (data1 ++ data1).take rt

/-- Embeds the `run_time` formula of `charge_needed` (openapi.py:1961):
`int((time_to_am if charge_pm else time_to_am + 24 if time_to_pm is None
else time_to_pm) + 0.99) + 1 + hour_adjustment` (the operand of `int` is
nonnegative because the times-to come from `round_time`). -/
def run_time_of (charge_pm : Bool) (time_to_am : ℚ) (time_to_pm : Option ℚ)
    (hour_adjustment : ℤ) : ℤ :=
  let v : ℚ := if charge_pm then time_to_am else
    match time_to_pm with
    | none => time_to_am + 24
    | some t => t
  ⌊v + 99/100⌋ + 1 + hour_adjustment

/-- Embeds the duration clamping of `get_agile_period` (openapi.py:1592):
`3 if duration is None else 6 if duration > 6 else 1 if duration < 1 else duration`. -/
def duration_clamped (d : Option ℚ) : ℚ :=
  match d with
  | none => 3
  | some x => if x > 6 then 6 else if x < 1 then 1 else x

/-- Embeds openapi.py:1594: `duration = round(duration * 2 + 0.49, 0) / 2`. -/
def agile_duration (d : Option ℚ) : ℚ := (pyRound (duration_clamped d * 2 + 49/100) : ℚ) / 2

/-- Embeds openapi.py:1596: `span = int(duration * 2)` (nonnegative, so `⌊·⌋`). -/
def agile_span (d : Option ℚ) : ℤ := ⌊agile_duration d * 2⌋

/-- Embeds the weight preparation of `get_agile_period` (openapi.py:1660):
`[1.0] * span if weighting is None else (weighting + [0.0] * span)[:span]`. -/
def agile_weights (weighting : Option (List ℚ)) (span : ℕ) : List ℚ :=
  match weighting with
  | none => List.replicate span 1
  | some w => (w ++ List.replicate span 0).take span

/-- Embeds the per-candidate score of `get_agile_period` (openapi.py:1663):
`round(sum(p * w for p, w in zip(prices[i: i + span], weights)) / sum(weights), 2)`. -/
def wavg (prices weights : List ℚ) (span i : ℕ) : ℚ :=
  pyRound2 (((((prices.drop i).take span).zip weights).map (fun pw => pw.1 * pw.2)).sum
    / weights.sum)

/-- The minimum-tracking loop of `get_agile_period` (openapi.py:1661): having
seen best value `bv = f bi`, scan the next `n` indices starting at `i`,
updating only on a strictly smaller score (`wavg < min_v`). -/
def scanMinAux (f : ℕ → ℚ) : ℕ → ℚ → ℕ → ℕ → ℕ × ℚ
  | bi, bv, _, 0 => (bi, bv)
  | bi, bv, i, n+1 =>
    if f i < bv then scanMinAux f i (f i) (i+1) n
    else scanMinAux f bi bv (i+1) n

/-- Scan `f` over `[s, e]`: the first iteration always installs `(s, f s)`
(`min_v is None`), then the remaining `e - s` indices are scanned. -/
def scanMin (f : ℕ → ℚ) (s e : ℕ) : ℕ × ℚ := scanMinAux f s (f s) (s+1) (e - s)

/-- The candidate selection of `get_agile_period` (openapi.py:1647-1669):
`end_i = start_i if end_i < start_i else end_i`, then the scan of weighted
averages over `range(start_i, end_i + 1)` tracking the lowest score. -/
def agile_best (prices : List ℚ) (weighting : Option (List ℚ)) (span s e : ℕ) : ℕ × ℚ :=
  let e1 := if e < s then s else e
  scanMin (fun i => wavg prices (agile_weights weighting span) span i) s e1

/-- The weighted average as the specification states it (§4.3), with no
rounding: `Σ(price[i..i+span) * weight) / Σ(weight)`.  Used only to compare
the code's selection score against the spec's wording. -/
def spec_weighted_avg (prices weights : List ℚ) (span i : ℕ) : ℚ :=
  (((((prices.drop i).take span).zip weights).map (fun pw => pw.1 * pw.2)).sum
    / weights.sum)

/-- Embeds the baseline residual simulation of `charge_needed`
(openapi.py:2224-2242).  State: `kwh` is `kwh_current`, `rd` is
`reserve_drain`, `i` the hour index.  Each step: if `kwh_current <= reserve
and i <= time_to_next`, pin to the drain floor (resetting it to `reserve`
once it falls below 6% of capacity) and let it decay by the BMS drain;
otherwise reset the drain floor; then clamp to `capacity` from above,
append, and add the hour's net energy `kwh_timed[i]`. -/
def bat_sim (reserve capacity bms_power : ℚ) (ttn : ℤ) : ℕ → ℚ → ℚ → List ℚ → List ℚ
  | _, _, _, [] => []
  | i, kwh, rd, d :: ds =>
    let step :=
      if kwh ≤ reserve ∧ (i : ℤ) ≤ ttn then
        let rd1 := if rd < capacity * 6 / 100 then reserve else rd
        (rd1, rd1 - bms_power / 1000)
      else (kwh, reserve)
    let kwh2 := if step.1 > capacity then capacity else step.1
    kwh2 :: bat_sim reserve capacity bms_power ttn (i+1) (kwh2 + d) step.2 ds

/-- The baseline `bat_timed` list (openapi.py:2221-2242), starting from the
back-adjusted residual with `reserve_drain = reserve` and hour index 0. -/
def bat_timed (reserve capacity bms_power : ℚ) (ttn : ℤ) (deltas : List ℚ)
    (start : ℚ) : List ℚ :=
  bat_sim reserve capacity bms_power ttn 0 start reserve deltas

/-- Embeds the re-simulation loop of `charge_needed` (openapi.py:2307-2322):
identical to `bat_sim` except that the pin-at-reserve branch is taken
whenever `kwh_current <= reserve`, with no hour-index condition. -/
def bat_sim2 (reserve capacity bms_power : ℚ) : ℚ → ℚ → List ℚ → List ℚ
  | _, _, [] => []
  | kwh, rd, d :: ds =>
    let step :=
      if kwh ≤ reserve then
        let rd1 := if rd < capacity * 6 / 100 then reserve else rd
        (rd1, rd1 - bms_power / 1000)
      else (kwh, reserve)
    let kwh2 := if step.1 > capacity then capacity else step.1
    kwh2 :: bat_sim2 reserve capacity bms_power (kwh2 + d) step.2 ds

/-- The second `bat_timed` list (openapi.py:2306-2322). -/
def bat_timed2 (reserve capacity bms_power : ℚ) (deltas : List ℚ) (start : ℚ) : List ℚ :=
  bat_sim2 reserve capacity bms_power start reserve deltas

/-- Embeds the charge decision of `charge_needed` (openapi.py:2249-2276).
Inputs are the quantities the code has computed at line 2249; `full_charge`
is whether the full-charge override date matched, `force2` is the
`force_charge == 2` low-temperature flag.  Output is the final
`(kwh_needed, hours)` pair:
`(0, 0)` when `kwh_min > reserve and kwh_needed < min_kwh and full_charge
is None and test_charge is None`; otherwise the taper allowance is added,
`hours = round_time(kwh_needed / (charge_limit * charge_loss +
discharge_timed[time_to_next]) + taper_time)`, and the full window is used
when the override, the flag, `hours > charge_time` or
`start_residual + kwh_needed > capacity * 1.05` applies, else `hours` is
raised to `min_hours` when below it. -/
def charge_decision (kwh_min reserve kwh_needed min_kwh min_hours charge_time : ℚ)
    (full_charge : Bool) (test_charge : Option ℚ) (force2 : Bool)
    (start_residual capacity charge_limit charge_loss discharge_at_next : ℚ) : ℚ × ℚ :=
  if kwh_min > reserve ∧ kwh_needed < min_kwh ∧ full_charge = false ∧ test_charge = none then
    (0, 0)
  else
    let kwh1 := match test_charge with
      | some t => t
      | none => kwh_needed
    let taper_time : ℚ := if start_residual + kwh1 ≥ capacity * 95 / 100 then 10 / 60 else 0
    let hours := round_time (kwh1 / (charge_limit * charge_loss + discharge_at_next) + taper_time)
    if full_charge = true ∨ force2 = true ∨ hours > charge_time
        ∨ start_residual + kwh1 > capacity * 105 / 100 then
      (capacity - start_residual, charge_time)
    else if hours < min_hours then (kwh1, min_hours)
    else (kwh1, hours)

/-- Embeds openapi.py:2244-2246: `kwh_needed = reserve + kwh_contingency -
kwh_min` with `kwh_contingency = consumption * contingency / 100`. -/
def kwh_needed_of (reserve consumption contingency kwh_min : ℚ) : ℚ :=
  reserve + consumption * contingency / 100 - kwh_min

/-- The `kwh_needed` value of the plan before the full-charge override is
considered: the formula of line 2246 zeroed by the no-charge branch of line
2249 (the first component of `charge_decision` restricted to its first
branch point). -/
def kwh_needed_pre (reserve consumption contingency kwh_min min_kwh : ℚ)
    (full_charge : Bool) (test_charge : Option ℚ) : ℚ :=
  let needed := kwh_needed_of reserve consumption contingency kwh_min
  if kwh_min > reserve ∧ needed < min_kwh ∧ full_charge = false ∧ test_charge = none then 0
  else needed

/-- The final `kwh_needed` produced by the solver for a scenario, as a
function of `contingency`: the contingency formula fed through the whole
charge decision. -/
def solver_kwh_needed (reserve consumption contingency kwh_min min_kwh min_hours
    charge_time : ℚ) (full_charge : Bool) (test_charge : Option ℚ) (force2 : Bool)
    (start_residual capacity charge_limit charge_loss discharge_at_next : ℚ) : ℚ :=
  (charge_decision kwh_min reserve (kwh_needed_of reserve consumption contingency kwh_min)
    min_kwh min_hours charge_time full_charge test_charge force2
    start_residual capacity charge_limit charge_loss discharge_at_next).1

lemma wrap24_eq_fract (h : ℚ) : wrap24 h = 24 * Int.fract (h / 24) := by
  unfold wrap24 Int.fract
  field_simp

lemma wrap24_nonneg (h : ℚ) : 0 ≤ wrap24 h := by
  rw [wrap24_eq_fract]
  have := Int.fract_nonneg (h / 24)
  linarith

lemma wrap24_lt (h : ℚ) : wrap24 h < 24 := by
  rw [wrap24_eq_fract]
  have := Int.fract_lt_one (h / 24)
  linarith

lemma wrap24_eq_self {h : ℚ} (h0 : 0 ≤ h) (h24 : h < 24) : wrap24 h = h := by
  unfold wrap24
  have hf : ⌊h / 24⌋ = 0 := by
    rw [Int.floor_eq_zero_iff]
    constructor
    · positivity
    · rw [div_lt_one (by norm_num)]
      simpa using h24
  rw [hf]
  push_cast
  ring

lemma wrap24_idem (h : ℚ) : wrap24 (wrap24 h) = wrap24 h :=
  wrap24_eq_self (wrap24_nonneg h) (wrap24_lt h)

lemma wrap24_add_24 (h : ℚ) : wrap24 (h + 24) = wrap24 h := by
  unfold wrap24
  have : (h + 24) / 24 = h / 24 + 1 := by ring
  rw [this, Int.floor_add_one]
  push_cast
  ring

/-- C9 (amended): `round_time` always lands in the closed interval
`[0, 24]`: the wrap puts the hour in `[0, 24)`, but rounding to the nearest
minute can push a value within half a minute of midnight up to exactly
`24.0`. -/
theorem C9_round_time_range : ∀ h : ℚ, 0 ≤ round_time h ∧ round_time h ≤ 24 := by
  intro h
  unfold round_time
  have h0 : 0 ≤ wrap24 h := wrap24_nonneg h
  have h24 : wrap24 h < 24 := wrap24_lt h
  have hf0 : 0 ≤ ⌊wrap24 h⌋ := Int.floor_nonneg.mpr h0
  have hf23 : ⌊wrap24 h⌋ ≤ 23 := by
    have : ⌊wrap24 h⌋ < 24 := Int.floor_lt.mpr (by exact_mod_cast h24)
    omega
  have hfr0 : 0 ≤ wrap24 h - ⌊wrap24 h⌋ := by
    have := Int.floor_le (wrap24 h)
    linarith
  have hfr1 : wrap24 h - ⌊wrap24 h⌋ < 1 := by
    have := Int.lt_floor_add_one (wrap24 h)
    linarith
  have hm0 : 0 ≤ ⌊60 * (wrap24 h - ⌊wrap24 h⌋) + 1/2⌋ := Int.floor_nonneg.mpr (by linarith)
  have hm60 : ⌊60 * (wrap24 h - ⌊wrap24 h⌋) + 1/2⌋ ≤ 60 := by
    have : ⌊60 * (wrap24 h - ⌊wrap24 h⌋) + 1/2⌋ < 61 := Int.floor_lt.mpr (by push_cast; linarith)
    omega
  constructor
  · have h1 : (0:ℚ) ≤ (⌊wrap24 h⌋ : ℚ) := by exact_mod_cast hf0
    have h2 : (0:ℚ) ≤ (⌊60 * (wrap24 h - ⌊wrap24 h⌋) + 1/2⌋ : ℚ) := by exact_mod_cast hm0
    positivity
  · have h1 : (⌊wrap24 h⌋ : ℚ) ≤ 23 := by exact_mod_cast hf23
    have h2 : (⌊60 * (wrap24 h - ⌊wrap24 h⌋) + 1/2⌋ : ℚ) ≤ 60 := by exact_mod_cast hm60
    linarith

/-- C9 counterexample: at `h = 2879/120` (that is 23:59.5, within half a
minute of midnight) `round_time` returns exactly `24`, which is not in the
half-open interval `[0, 24)` the claim asserts. -/
theorem C9_counterexample :
    round_time (2879/120) = 24 ∧ ¬ round_time (2879/120) < 24 := by
  norm_num [round_time, wrap24]

/-- C7: `hour_in` on a period with both endpoints set: for hours already in
`[0,24)` it is `h >= start or h < end` for a wrapping period
(`start > end`), `start <= h < end` otherwise; a degenerate period
(`start == end`) matches no hour at all; and the period 22:00-04:00
contains 23:00 and 01:00 but not 10:00. -/
theorem C7_hour_in_spec :
    (∀ s e hv : ℚ, 0 ≤ hv → hv < 24 → s ≠ e →
      (hour_in hv (some ⟨some s, some e⟩) = true ↔
        if s > e then (hv ≥ s ∨ hv < e) else (s ≤ hv ∧ hv < e)))
    ∧ (∀ s hv : ℚ, hour_in hv (some ⟨some s, some s⟩) = false)
    ∧ hour_in 23 (some ⟨some 22, some 4⟩) = true
    ∧ hour_in 1 (some ⟨some 22, some 4⟩) = true
    ∧ hour_in 10 (some ⟨some 22, some 4⟩) = false := by
  refine ⟨?_, ?_, ?_, ?_, ?_⟩
  · intro s e hv h0 h24 hne
    simp only [hour_in, if_neg hne, wrap24_eq_self h0 h24]
    split
    · simp [ge_iff_le]
    · simp [ge_iff_le]
  · intro s hv
    simp [hour_in]
  · have : wrap24 (23:ℚ) = 23 := wrap24_eq_self (by norm_num) (by norm_num)
    simp [hour_in, this]
    norm_num
  · have : wrap24 (1:ℚ) = 1 := wrap24_eq_self (by norm_num) (by norm_num)
    simp [hour_in, this]
    norm_num
  · have : wrap24 (10:ℚ) = 10 := wrap24_eq_self (by norm_num) (by norm_num)
    simp [hour_in, this]
    norm_num

/-- Witness for C7: the wrapping-period clause instantiated at the concrete
period 22:00-04:00 and hour 23. -/
theorem C7_witness :
    (0:ℚ) ≤ 23 ∧ (23:ℚ) < 24 ∧ (22:ℚ) ≠ 4 ∧
      (hour_in 23 (some ⟨some 22, some 4⟩) = true ↔
        if (22:ℚ) > 4 then ((23:ℚ) ≥ 22 ∨ (23:ℚ) < 4) else ((22:ℚ) ≤ 23 ∧ (23:ℚ) < 4)) :=
  ⟨by norm_num, by norm_num, by norm_num,
    C7_hour_in_spec.1 22 4 23 (by norm_num) (by norm_num) (by norm_num)⟩

/-- C10: `hour_in` is 24-periodic in its hour argument and insensitive to
wrapping, for every period (including missing or degenerate ones), so the
solver may pass un-normalized hours such as `base_hour + i`. -/
theorem C10_hour_in_periodic : ∀ (h : ℚ) (p : Option Period),
    hour_in (h + 24) p = hour_in h p ∧ hour_in h p = hour_in (wrap24 h) p := by
  intro h p
  match p with
  | none => simp [hour_in]
  | some ⟨none, _⟩ => simp [hour_in]
  | some ⟨some s, none⟩ => simp [hour_in]
  | some ⟨some s, some e⟩ =>
    constructor
    · simp only [hour_in, wrap24_add_24]
    · simp only [hour_in, wrap24_idem]

lemma floor_of_hm (hh mm : ℕ) (hmm : mm < 60) : ⌊(hh : ℚ) + (mm : ℚ) / 60⌋ = hh := by
  have h1 : ((hh : ℚ) + (mm : ℚ) / 60) = ((hh : ℤ) : ℚ) + (mm : ℚ) / 60 := by push_cast; ring
  rw [h1, Int.floor_int_add]
  have h2 : ⌊(mm : ℚ) / 60⌋ = 0 := by
    rw [Int.floor_eq_zero_iff]
    constructor
    · positivity
    · rw [div_lt_one (by norm_num)]
      exact_mod_cast hmm
  omega

/-- C8: converting a valid `HH:MM` string (digits `hh < 24`, `mm < 60`) to
decimal hours with `time_hours` and back with `hours_time` reproduces the
same five characters `HH:MM` exactly. -/
theorem C8_time_roundtrip : ∀ hh mm : ℕ, hh < 24 → mm < 60 →
    hours_timeChars (time_hoursHM hh mm) = fmt02 hh ++ ':' :: fmt02 mm := by
  intro hh mm hhh hmm
  have hq : time_hoursHM hh mm = (hh : ℚ) + (mm : ℚ) / 60 := by
    unfold time_hoursHM
    ring
  have h0 : (0:ℚ) ≤ (hh : ℚ) + (mm : ℚ) / 60 := by positivity
  have hlt : (hh : ℚ) + (mm : ℚ) / 60 < 24 := by
    have hm1 : (mm : ℚ) / 60 < 1 := by
      rw [div_lt_one (by norm_num)]
      exact_mod_cast hmm
    have hh23 : (hh : ℚ) ≤ 23 := by exact_mod_cast Nat.le_of_lt_succ hhh
    linarith
  have hfloor : ⌊(hh : ℚ) + (mm : ℚ) / 60⌋ = hh := floor_of_hm hh mm hmm
  have hmin : pyMod (((hh : ℚ) + (mm : ℚ) / 60) * 60) 60 = (mm : ℚ) := by
    unfold pyMod
    have hdiv : ((hh : ℚ) + (mm : ℚ) / 60) * 60 / 60 = (hh : ℚ) + (mm : ℚ) / 60 := by
      field_simp
    rw [hdiv, hfloor]
    push_cast
    ring
  have hsec : pyMod (((hh : ℚ) + (mm : ℚ) / 60) * 3600) 60 = 0 := by
    unfold pyMod
    have hdiv : ((hh : ℚ) + (mm : ℚ) / 60) * 3600 / 60 = ((60 * hh + mm : ℕ) : ℚ) := by
      push_cast
      field_simp
      ring
    rw [hdiv, Int.floor_natCast]
    push_cast
    ring
  simp only [hours_timeChars, hq, wrap24_eq_self h0 hlt, hfloor, hmin, hsec,
    Int.floor_natCast, Int.floor_zero, Int.toNat_natCast, Int.toNat_zero]
  simp [fmt02, List.take]

/-- Witness for C8: the round trip at the concrete time 23:59. -/
theorem C8_witness :
    23 < 24 ∧ 59 < 60 ∧
      hours_timeChars (time_hoursHM 23 59) = fmt02 23 ++ ':' :: fmt02 59 :=
  ⟨by norm_num, by norm_num, C8_time_roundtrip 23 59 (by norm_num) (by norm_num)⟩

lemma bat_sim_le (reserve capacity bms_power : ℚ) (ttn : ℤ) :
    ∀ (ds : List ℚ) (i : ℕ) (kwh rd : ℚ),
      ∀ x ∈ bat_sim reserve capacity bms_power ttn i kwh rd ds, x ≤ capacity := by
  intro ds
  induction ds with
  | nil => intro i kwh rd x hx; simp [bat_sim] at hx
  | cons d ds ih =>
    intro i kwh rd x hx
    simp only [bat_sim, List.mem_cons] at hx
    rcases hx with hx | hx
    · subst hx
      split_ifs <;> first | exact le_refl _ | exact le_of_not_lt (by assumption)
    · exact ih _ _ _ _ hx

lemma bat_sim_nonneg (reserve capacity bms_power : ℚ) (ttn : ℤ)
    (hr : 0 ≤ reserve) (hc : 0 ≤ capacity) :
    ∀ (ds : List ℚ) (i : ℕ) (kwh rd : ℚ) (j : ℕ) (x : ℚ),
      ((i : ℤ) + j ≤ ttn) →
      (bat_sim reserve capacity bms_power ttn i kwh rd ds).get? j = some x → 0 ≤ x := by
  intro ds
  induction ds with
  | nil => intro i kwh rd j x hj hx; simp [bat_sim] at hx
  | cons d ds ih =>
    intro i kwh rd j x hj hx
    simp only [bat_sim] at hx
    match j with
    | 0 =>
      rw [List.get?_cons_zero] at hx
      obtain rfl : _ = x := Option.some.inj hx
      have hi : (i : ℤ) ≤ ttn := by omega
      split_ifs with h1 h2 h3 h4 h5
      all_goals try dsimp only
      all_goals first
        | exact hc
        | exact hr
        | linarith
        | (have hk : reserve < kwh := by
             rcases not_and_or.mp h1 with h | h
             · exact not_le.mp h
             · exact absurd hi h
           linarith)
        | (simp only [not_lt] at *; linarith)
    | j + 1 =>
      rw [List.get?_cons_succ] at hx
      exact ih (i+1) _ _ j x (by push_cast; push_cast at hj; omega) hx

lemma bat_sim2_mem (reserve capacity bms_power : ℚ)
    (hr : 0 ≤ reserve) (hc : 0 ≤ capacity) :
    ∀ (ds : List ℚ) (kwh rd : ℚ),
      ∀ x ∈ bat_sim2 reserve capacity bms_power kwh rd ds, 0 ≤ x ∧ x ≤ capacity := by
  intro ds
  induction ds with
  | nil => intro kwh rd x hx; simp [bat_sim2] at hx
  | cons d ds ih =>
    intro kwh rd x hx
    simp only [bat_sim2, List.mem_cons] at hx
    rcases hx with hx | hx
    · subst hx
      constructor
      · split_ifs with h1 h2 h3 h4 h5
        all_goals try dsimp only
        all_goals first
          | exact hc
          | exact hr
          | linarith
          | (have hk : reserve < kwh := not_le.mp h1
             linarith)
          | (simp only [not_lt] at *; linarith)
      · split_ifs <;> first | exact le_refl _ | exact le_of_not_lt (by assumption)
    · exact ih _ _ _ hx

/-- C1 (amended): every value appended to a residual timeline is clamped to
`capacity` from above; in the baseline pass (`bat_timed`, which pins at the
reserve only while the hour index is at most `time_to_next`) entries at
indices up to `time_to_next` are also nonnegative, but later entries may
fall below `0`; in the re-simulation pass (`bat_timed2`, which pins at the
reserve at every hour) every entry lies in `[0, capacity]`.  Throughout,
`0 ≤ reserve` and `0 ≤ capacity`. -/
theorem C1_bat_timed_bounds (reserve capacity bms_power : ℚ) (ttn : ℤ)
    (deltas : List ℚ) (start : ℚ) (hr : 0 ≤ reserve) (hc : 0 ≤ capacity) :
    (∀ x ∈ bat_timed reserve capacity bms_power ttn deltas start, x ≤ capacity)
    ∧ (∀ (j : ℕ) (x : ℚ), (j : ℤ) ≤ ttn →
        (bat_timed reserve capacity bms_power ttn deltas start).get? j = some x → 0 ≤ x)
    ∧ (∀ x ∈ bat_timed2 reserve capacity bms_power deltas start, 0 ≤ x ∧ x ≤ capacity) := by
  refine ⟨?_, ?_, ?_⟩
  · exact bat_sim_le reserve capacity bms_power ttn deltas 0 start reserve
  · intro j x hj hx
    exact bat_sim_nonneg reserve capacity bms_power ttn hr hc deltas 0 start reserve j x
      (by omega) hx
  · exact bat_sim2_mem reserve capacity bms_power hr hc deltas start reserve

/-- Witness for C1: the bounds at a concrete scenario (reserve 1 kWh,
capacity 10 kWh, BMS 27 W, pre-charge window through hour 3). -/
theorem C1_witness :
    (0:ℚ) ≤ 1 ∧ (0:ℚ) ≤ 10 ∧
      ((∀ x ∈ bat_timed 1 10 27 3 [-2, 3, -1] 5, x ≤ 10)
      ∧ (∀ (j : ℕ) (x : ℚ), (j : ℤ) ≤ 3 →
          (bat_timed 1 10 27 3 [-2, 3, -1] 5).get? j = some x → 0 ≤ x)
      ∧ (∀ x ∈ bat_timed2 1 10 27 [-2, 3, -1] 5, 0 ≤ x ∧ x ≤ 10)) :=
  ⟨by norm_num, by norm_num,
    C1_bat_timed_bounds 1 10 27 3 [-2, 3, -1] 5 (by norm_num) (by norm_num)⟩

/-- C1 counterexample: with reserve 1, capacity 10, no BMS drain,
`time_to_next = 0` and deltas `[-5, 0]`, starting from residual 2 (inside
`[0, capacity]`), the baseline timeline is `[2, -3]`: the entry `-3`
appended after the pre-charge window is below `0`, contradicting the claim
that every appended value lies in `[0, capacity]`. -/
theorem C1_counterexample :
    bat_timed 1 10 0 0 [-5, 0] 2 = [2, -3] ∧ ¬ (0 ≤ (-3 : ℚ)) := by
  norm_num [bat_timed, bat_sim]

/-- C3 (amended): when the lowest simulated residual stays strictly above
the reserve, `kwh_needed` is strictly below the `min_kwh` threshold, and
neither a full-charge override nor a test charge applies, the solver
produces the "no charge needed" plan: `kwh_needed = 0` and zero duration. -/
theorem C3_no_charge_needed
    (kwh_min reserve kwh_needed min_kwh min_hours charge_time : ℚ) (force2 : Bool)
    (start_residual capacity charge_limit charge_loss discharge_at_next : ℚ)
    (h1 : kwh_min > reserve) (h2 : kwh_needed < min_kwh) :
    charge_decision kwh_min reserve kwh_needed min_kwh min_hours charge_time
      false none force2 start_residual capacity charge_limit charge_loss
      discharge_at_next = (0, 0) := by
  unfold charge_decision
  rw [if_pos ⟨h1, h2, rfl, rfl⟩]

/-- Witness for C3: the concrete scenario of the claim, `kwh_needed = 0.2`
with threshold `min_kwh = 0.5`, no full-charge override, lowest residual
2 kWh above a 1 kWh reserve: the plan is `(0, 0)`. -/
theorem C3_witness :
    (2:ℚ) > 1 ∧ (1/5 : ℚ) < 1/2 ∧
      charge_decision 2 1 (1/5) (1/2) (1/4) 3 false none false 5 10 2 1 0 = (0, 0) :=
  ⟨by norm_num, by norm_num,
    C3_no_charge_needed 2 1 (1/5) (1/2) (1/4) 3 false 5 10 2 1 0
      (by norm_num) (by norm_num)⟩

/-- C3 counterexample: at the boundary `kwh_needed = min_kwh = 0.5` (which
is "at the minimum threshold") with no full-charge override, the code's
strict test `kwh_needed < min_kwh` fails, so a charge is planned: the
result is `(0.5, 1/4)` with duration `1/4` hour, not zero.  (Scenario:
lowest residual 2 above reserve 1, start residual 5, capacity 10, charge
rate 2 kW, `min_hours = 1/4`, window 3 h.) -/
theorem C3_counterexample :
    charge_decision 2 1 (1/2) (1/2) (1/4) 3 false none false 5 10 2 1 0 = (1/2, 1/4)
    ∧ (1/4 : ℚ) ≠ 0 := by
  norm_num [charge_decision, round_time, wrap24]

/-- C4 (amended): the `kwh_needed` computed by the solver before the
full-charge override — the contingency formula of line 2246, zeroed by the
no-charge branch of line 2249 — is monotone non-decreasing in
`contingency_percent` (for nonnegative `consumption` and `min_kwh`); the
full-charge override of lines 2269-2271 can subsequently replace it with
the contingency-independent value `capacity - start_residual`, which
breaks monotonicity of the final produced value. -/
theorem C4_kwh_needed_monotone (reserve consumption kwh_min min_kwh : ℚ)
    (full_charge : Bool) (test_charge : Option ℚ) (c1 c2 : ℚ)
    (hcons : 0 ≤ consumption) (hmk : 0 ≤ min_kwh) (hc : c1 ≤ c2) :
    kwh_needed_pre reserve consumption c1 kwh_min min_kwh full_charge test_charge ≤
      kwh_needed_pre reserve consumption c2 kwh_min min_kwh full_charge test_charge := by
  simp only [kwh_needed_pre, kwh_needed_of]
  have hmono : reserve + consumption * c1 / 100 - kwh_min ≤
      reserve + consumption * c2 / 100 - kwh_min := by
    have := mul_le_mul_of_nonneg_left hc hcons
    linarith
  by_cases ha : kwh_min > reserve ∧ reserve + consumption * c1 / 100 - kwh_min < min_kwh
      ∧ full_charge = false ∧ test_charge = none
  · by_cases hb : kwh_min > reserve ∧ reserve + consumption * c2 / 100 - kwh_min < min_kwh
        ∧ full_charge = false ∧ test_charge = none
    · rw [if_pos ha, if_pos hb]
    · rw [if_pos ha, if_neg hb]
      obtain ⟨ha1, ha2, ha3, ha4⟩ := ha
      have hke : ¬ (reserve + consumption * c2 / 100 - kwh_min < min_kwh) := by
        intro hlt
        exact hb ⟨ha1, hlt, ha3, ha4⟩
      linarith [not_lt.mp hke]
  · have hb : ¬ (kwh_min > reserve ∧ reserve + consumption * c2 / 100 - kwh_min < min_kwh
        ∧ full_charge = false ∧ test_charge = none) := by
      intro hb
      exact ha ⟨hb.1, lt_of_le_of_lt hmono hb.2.1, hb.2.2.1, hb.2.2.2⟩
    rw [if_neg ha, if_neg hb]
    exact hmono

/-- Witness for C4: monotonicity of the pre-override `kwh_needed` at the
concrete scenario reserve 1, consumption 5, lowest residual 1, threshold
0.5, contingency 20% versus 33%. -/
theorem C4_witness :
    (0:ℚ) ≤ 5 ∧ (0:ℚ) ≤ 1/2 ∧ (20:ℚ) ≤ 33 ∧
      kwh_needed_pre 1 5 20 1 (1/2) false none ≤ kwh_needed_pre 1 5 33 1 (1/2) false none :=
  ⟨by norm_num, by norm_num, by norm_num,
    C4_kwh_needed_monotone 1 5 1 (1/2) false none 20 33
      (by norm_num) (by norm_num) (by norm_num)⟩

/-- C4 counterexample: with reserve 1, consumption 5, lowest residual 1,
threshold 0.5, `min_hours` 1/4, window 3 h, start residual 5, capacity 10
and charge rate 4 kW, raising `contingency_percent` from 108 to 112 makes
the projected total exceed 105% of capacity, so the full-charge override
replaces `kwh_needed`: the produced value drops from 5.4 to 5. -/
theorem C4_counterexample :
    solver_kwh_needed 1 5 108 1 (1/2) (1/4) 3 false none false 5 10 4 1 0 = 27/5
    ∧ solver_kwh_needed 1 5 112 1 (1/2) (1/4) 3 false none false 5 10 4 1 0 = 5
    ∧ (108 : ℚ) ≤ 112
    ∧ ¬ ((27/5 : ℚ) ≤ 5) := by
  norm_num [solver_kwh_needed, charge_decision, kwh_needed_of, round_time, wrap24]

lemma pyRound_bounds (x : ℚ) : ⌊x⌋ ≤ pyRound x ∧ pyRound x ≤ ⌊x⌋ + 1 := by
  simp only [pyRound]
  split_ifs <;> omega

lemma pyRound_nat_add_lt (q : ℕ) {c : ℚ} (h0 : 0 ≤ c) (h : c < 1/2) :
    pyRound ((q : ℚ) + c) = q := by
  simp only [pyRound]
  have hf : ⌊(q : ℚ) + c⌋ = q := by
    rw [Int.floor_nat_add, Int.floor_eq_zero_iff.mpr ⟨h0, by linarith⟩, add_zero]
  rw [hf]
  rw [if_pos (by push_cast; linarith)]

lemma pyRound_nat_add_gt (q : ℕ) {c : ℚ} (hlt : c < 1) (h : 1/2 < c) :
    pyRound ((q : ℚ) + c) = q + 1 := by
  simp only [pyRound]
  have hf : ⌊(q : ℚ) + c⌋ = q := by
    rw [Int.floor_nat_add, Int.floor_eq_zero_iff.mpr ⟨by linarith, hlt⟩, add_zero]
  rw [hf]
  rw [if_neg (by push_cast; linarith), if_pos (by push_cast; linarith)]

lemma pyRound_5div (n : ℕ) : pyRound ((n : ℚ) / 5 + 49/100) = ⌈(n : ℚ) / 5⌉ := by
  obtain ⟨q, r, hr, rfl⟩ : ∃ q r, r < 5 ∧ n = 5 * q + r :=
    ⟨n / 5, n % 5, Nat.mod_lt _ (by norm_num), (Nat.div_add_mod n 5).symm⟩
  have hq : ((5 * q + r : ℕ) : ℚ) / 5 = (r : ℚ) / 5 + (q : ℕ) := by push_cast; ring
  rw [hq, Int.ceil_add_nat]
  interval_cases r
  · rw [show ((0:ℕ):ℚ)/5 + (q:ℚ) + 49/100 = (q:ℚ) + 49/100 from by push_cast; ring]
    rw [pyRound_nat_add_lt q (by norm_num) (by norm_num)]
    norm_num
  · rw [show ((1:ℕ):ℚ)/5 + (q:ℚ) + 49/100 = (q:ℚ) + 69/100 from by push_cast; ring]
    rw [pyRound_nat_add_gt q (by norm_num) (by norm_num)]
    rw [show (((1:ℕ):ℚ)/5) = 1/5 from by push_cast; ring]
    have hceil : ⌈(1:ℚ)/5⌉ = 1 := by norm_num [Int.ceil_eq_iff]
    omega
  · rw [show ((2:ℕ):ℚ)/5 + (q:ℚ) + 49/100 = (q:ℚ) + 89/100 from by push_cast; ring]
    rw [pyRound_nat_add_gt q (by norm_num) (by norm_num)]
    rw [show (((2:ℕ):ℚ)/5) = 2/5 from by push_cast; ring]
    have hceil : ⌈(2:ℚ)/5⌉ = 1 := by norm_num [Int.ceil_eq_iff]
    omega
  · rw [show ((3:ℕ):ℚ)/5 + (q:ℚ) + 49/100 = (q:ℚ) + (1 + 9/100) from by push_cast; ring]
    rw [show (q:ℚ) + (1 + 9/100) = ((q+1 : ℕ):ℚ) + 9/100 from by push_cast; ring]
    rw [pyRound_nat_add_lt (q+1) (by norm_num) (by norm_num)]
    rw [show (((3:ℕ):ℚ)/5) = 3/5 from by push_cast; ring]
    have hceil : ⌈(3:ℚ)/5⌉ = 1 := by norm_num [Int.ceil_eq_iff]
    omega
  · rw [show ((4:ℕ):ℚ)/5 + (q:ℚ) + 49/100 = (q:ℚ) + (1 + 29/100) from by push_cast; ring]
    rw [show (q:ℚ) + (1 + 29/100) = ((q+1 : ℕ):ℚ) + 29/100 from by push_cast; ring]
    rw [pyRound_nat_add_lt (q+1) (by norm_num) (by norm_num)]
    rw [show (((4:ℕ):ℚ)/5) = 4/5 from by push_cast; ring]
    have hceil : ⌈(4:ℚ)/5⌉ = 1 := by norm_num [Int.ceil_eq_iff]
    omega

lemma agile_span_eq (d : Option ℚ) :
    agile_span d = pyRound (duration_clamped d * 2 + 49/100) := by
  unfold agile_span agile_duration
  rw [show ((pyRound (duration_clamped d * 2 + 49/100) : ℚ) / 2 * 2)
      = (pyRound (duration_clamped d * 2 + 49/100) : ℚ) by ring]
  exact Int.floor_intCast _

lemma duration_clamped_mem (d : Option ℚ) :
    1 ≤ duration_clamped d ∧ duration_clamped d ≤ 6 := by
  match d with
  | none => simp only [duration_clamped]; norm_num
  | some x =>
    simp only [duration_clamped]
    split_ifs <;> constructor <;> linarith

/-- C5 (amended): after the requested duration is clamped to `[1, 6]`
hours, the optimizer's span always lies between 2 and 12 half-hour slots,
and for durations in 0.1-hour granularity it equals
`⌈2 × duration_clamped⌉` — the duration rounded up to a whole count of
half-hour slots — which is odd for half-hour durations such as 1.5 h, so
the span is neither always even nor equal to `2 × ⌈duration⌉`. -/
theorem C5_span_bounds :
    (∀ d : Option ℚ, 2 ≤ agile_span d ∧ agile_span d ≤ 12)
    ∧ (∀ n : ℕ, agile_span (some ((n : ℚ) / 10)) =
        ⌈2 * duration_clamped (some ((n : ℚ) / 10))⌉) := by
  constructor
  · intro d
    obtain ⟨h1, h6⟩ := duration_clamped_mem d
    rw [agile_span_eq]
    obtain ⟨hb1, hb2⟩ := pyRound_bounds (duration_clamped d * 2 + 49/100)
    have hfl : (2:ℤ) ≤ ⌊duration_clamped d * 2 + 49/100⌋ :=
      Int.le_floor.mpr (by push_cast; linarith)
    have hfu : ⌊duration_clamped d * 2 + 49/100⌋ ≤ 12 := by
      have h13 : ⌊duration_clamped d * 2 + 49/100⌋ < 13 :=
        Int.floor_lt.mpr (by push_cast; linarith)
      omega
    refine ⟨by omega, ?_⟩
    by_cases h12 : ⌊duration_clamped d * 2 + 49/100⌋ ≤ 11
    · omega
    · have hf12 : ⌊duration_clamped d * 2 + 49/100⌋ = 12 := by omega
      have hfr : duration_clamped d * 2 + 49/100 - ⌊duration_clamped d * 2 + 49/100⌋ < 1/2 := by
        rw [hf12]
        push_cast
        linarith
      simp only [pyRound]
      rw [if_pos hfr]
      omega
  · intro n
    rw [agile_span_eq]
    by_cases h60 : (n : ℚ) / 10 > 6
    · rw [show duration_clamped (some ((n : ℚ) / 10)) = 6 from by
        simp only [duration_clamped]; rw [if_pos h60]]
      norm_num [pyRound, Int.ceil_eq_iff]
    · by_cases h10 : (n : ℚ) / 10 < 1
      · rw [show duration_clamped (some ((n : ℚ) / 10)) = 1 from by
          simp only [duration_clamped]; rw [if_neg h60, if_pos h10]]
        norm_num [pyRound, Int.ceil_eq_iff]
      · rw [show duration_clamped (some ((n : ℚ) / 10)) = (n : ℚ) / 10 from by
          simp only [duration_clamped]; rw [if_neg h60, if_neg h10]]
        have hdiv : (n : ℚ) / 10 * 2 = (n : ℚ) / 5 := by ring
        rw [hdiv, pyRound_5div]
        congr 1
        ring

/-- C5 counterexample: a requested duration of 1.5 h (already clamped, a
half-hour multiple) yields a span of 3 half-hour slots — not
`2 × ⌈1.5⌉ = 4`, and not even. -/
theorem C5_counterexample :
    agile_span (some (3/2)) = 3 ∧ 2 * ⌈(3:ℚ)/2⌉ = 4 ∧ (3:ℤ) ≠ 4 ∧ ¬ Even (3:ℤ) := by
  refine ⟨?_, ?_, by norm_num, by decide⟩
  · norm_num [agile_span, agile_duration, duration_clamped, pyRound]
  · rw [show ⌈(3:ℚ)/2⌉ = 2 from by rw [Int.ceil_eq_iff]; norm_num]
    norm_num

lemma rot_get (data : List ℚ) (h24 : data.length = 24) (h : ℕ) (hh : h < 24)
    (j : ℕ) (hj : j < 24) :
    (data.drop h ++ data.take h).get? j = data.get? ((h + j) % 24) := by
  by_cases hcase : j < 24 - h
  · rw [List.get?_append (by simp [h24]; omega)]
    rw [List.get?_drop]
    congr 1
    omega
  · rw [List.get?_append_right (by simp [h24]; omega)]
    rw [List.get?_take (by simp [h24]; omega)]
    congr 1
    simp [h24]
    omega

lemma rot2_get (data : List ℚ) (h24 : data.length = 24) (h : ℕ) (hh : h < 24)
    (j : ℕ) (hj : j < 48) :
    ((data.drop h ++ data.take h) ++ (data.drop h ++ data.take h)).get? j
      = data.get? ((h + j) % 24) := by
  have hlen : (data.drop h ++ data.take h).length = 24 := by simp [h24]; omega
  by_cases hcase : j < 24
  · rw [List.get?_append (by rw [hlen]; exact hcase)]
    exact rot_get data h24 h hh j hcase
  · rw [List.get?_append_right (by rw [hlen]; omega)]
    rw [hlen]
    rw [rot_get data h24 h hh (j - 24) (by omega)]
    congr 1
    omega

/-- C6 (amended): for a 24-value profile and a current hour in `[0, 24)`,
the rotated timeline starts at `floor(hour_now)` — entry `i` is
`profile[(floor(hour_now) + i) mod 24]` — and has exactly `run_time`
entries whenever `run_time ≤ 48`; in general its length is
`min run_time 48`, because the rotation only doubles the 24-value profile
before truncating, so a computed `run_time` larger than 48 (possible for
an AM-only tariff almost a full day away) yields a short timeline. -/
theorem C6_timed_list_spec (data : List ℚ) (hour_now : ℚ) (rt : ℕ)
    (h24 : data.length = 24) (h0 : 0 ≤ hour_now) (hlt : hour_now < 24) (hrt : rt ≤ 48) :
    (timed_list data hour_now (some rt)).length = rt
    ∧ (∀ i, i < rt → (timed_list data hour_now (some rt)).get? i
        = data.get? (((⌊hour_now⌋).toNat + i) % 24))
    ∧ (∀ rt2 : ℕ, (timed_list data hour_now (some rt2)).length = min rt2 48) := by
  have hh : (⌊hour_now⌋).toNat < 24 := by
    have h1 : ⌊hour_now⌋ < 24 := Int.floor_lt.mpr (by exact_mod_cast hlt)
    have h2 : 0 ≤ ⌊hour_now⌋ := Int.floor_nonneg.mpr h0
    omega
  refine ⟨?_, ?_, ?_⟩
  · simp only [timed_list]
    simp [h24]
    omega
  · intro i hi
    simp only [timed_list]
    rw [List.get?_take hi]
    exact rot2_get data h24 _ hh i (by omega)
  · intro rt2
    simp only [timed_list]
    simp [h24]
    omega

/-- Witness for C6: the rotation/length property at a concrete 24-entry
profile, current hour 3, and a run time of 5 hours. -/
theorem C6_witness :
    (List.replicate 24 (0:ℚ)).length = 24 ∧ (0:ℚ) ≤ 3 ∧ (3:ℚ) < 24 ∧ 5 ≤ 48 ∧
      ((timed_list (List.replicate 24 (0:ℚ)) 3 (some 5)).length = 5
      ∧ (∀ i, i < 5 → (timed_list (List.replicate 24 (0:ℚ)) 3 (some 5)).get? i
          = (List.replicate 24 (0:ℚ)).get? (((⌊(3:ℚ)⌋).toNat + i) % 24))
      ∧ (∀ rt2 : ℕ, (timed_list (List.replicate 24 (0:ℚ)) 3 (some rt2)).length = min rt2 48)) :=
  ⟨by simp, by norm_num, by norm_num, by norm_num,
    C6_timed_list_spec (List.replicate 24 (0:ℚ)) 3 5 (by simp) (by norm_num)
      (by norm_num) (by norm_num)⟩

/-- C6 counterexample: with an AM-only tariff (no PM window) whose start is
half an hour past the current hour modulo a day, `time_to_am = 23.5`, the
computed `run_time` is 49; but `timed_list` then returns only 48 entries
(the doubled 24-hour profile truncated), so the timeline length differs
from `run_time`. -/
theorem C6_counterexample :
    run_time_of false (round_time ((1:ℚ)/2 - 1)) none 0 = 49
    ∧ (timed_list (List.replicate 24 (0:ℚ)) 1 (some 49)).length = 48
    ∧ (48 : ℕ) ≠ 49 := by
  refine ⟨?_, ?_, by norm_num⟩
  · norm_num [run_time_of, round_time, wrap24]
  · norm_num [timed_list]

lemma scanMinAux_spec (f : ℕ → ℚ) :
    ∀ (n bi i : ℕ) (bv : ℚ), bv = f bi → bi < i →
      (scanMinAux f bi bv i n).2 = f (scanMinAux f bi bv i n).1
      ∧ ((scanMinAux f bi bv i n).1 = bi ∧ (scanMinAux f bi bv i n).2 = bv
          ∨ (i ≤ (scanMinAux f bi bv i n).1 ∧ (scanMinAux f bi bv i n).1 < i + n
             ∧ (scanMinAux f bi bv i n).2 < bv))
      ∧ (∀ j, i ≤ j → j < i + n → (scanMinAux f bi bv i n).2 ≤ f j)
      ∧ (∀ j, i ≤ j → j < (scanMinAux f bi bv i n).1 → (scanMinAux f bi bv i n).2 < f j) := by
  intro n
  induction n with
  | zero =>
    intro bi i bv hbv hbi
    refine ⟨hbv, Or.inl ⟨rfl, rfl⟩, ?_, ?_⟩
    · intro j h1 h2
      exact absurd h2 (by omega)
    · intro j h1 h2
      have h3 : j < bi := h2
      exact absurd h3 (by omega)
  | succ n ih =>
    intro bi i bv hbv hbi
    by_cases hlt : f i < bv
    · have heq : scanMinAux f bi bv i (n+1) = scanMinAux f i (f i) (i+1) n := by
        simp only [scanMinAux, if_pos hlt]
      obtain ⟨ih1, ih2, ih3, ih4⟩ := ih i (i+1) (f i) rfl (by omega)
      rw [heq]
      refine ⟨ih1, ?_, ?_, ?_⟩
      · rcases ih2 with ⟨h1, h2⟩ | ⟨h1, h2, h3⟩
        · exact Or.inr ⟨by omega, by omega, by rw [h2]; exact hlt⟩
        · exact Or.inr ⟨by omega, by omega, by linarith⟩
      · intro j hj1 hj2
        rcases Nat.eq_or_lt_of_le hj1 with rfl | hj1
        · rcases ih2 with ⟨h1, h2⟩ | ⟨h1, h2, h3⟩
          · rw [h2]
          · linarith
        · exact ih3 j (by omega) (by omega)
      · intro j hj1 hj2
        rcases Nat.eq_or_lt_of_le hj1 with rfl | hj1
        · rcases ih2 with ⟨h1, h2⟩ | ⟨h1, h2, h3⟩
          · omega
          · exact h3
        · exact ih4 j (by omega) hj2
    · have heq : scanMinAux f bi bv i (n+1) = scanMinAux f bi bv (i+1) n := by
        simp only [scanMinAux, if_neg hlt]
      have hge : bv ≤ f i := not_lt.mp hlt
      obtain ⟨ih1, ih2, ih3, ih4⟩ := ih bi (i+1) bv hbv (by omega)
      rw [heq]
      refine ⟨ih1, ?_, ?_, ?_⟩
      · rcases ih2 with ⟨h1, h2⟩ | ⟨h1, h2, h3⟩
        · exact Or.inl ⟨h1, h2⟩
        · exact Or.inr ⟨by omega, by omega, h3⟩
      · intro j hj1 hj2
        rcases Nat.eq_or_lt_of_le hj1 with rfl | hj1
        · rcases ih2 with ⟨h1, h2⟩ | ⟨h1, h2, h3⟩
          · rw [h2]; exact hge
          · linarith
        · exact ih3 j (by omega) (by omega)
      · intro j hj1 hj2
        rcases Nat.eq_or_lt_of_le hj1 with rfl | hj1
        · rcases ih2 with ⟨h1, h2⟩ | ⟨h1, h2, h3⟩
          · omega
          · linarith
        · exact ih4 j (by omega) hj2

lemma scanMin_spec (f : ℕ → ℚ) (s e : ℕ) (hse : s ≤ e) :
    s ≤ (scanMin f s e).1 ∧ (scanMin f s e).1 ≤ e
    ∧ (scanMin f s e).2 = f (scanMin f s e).1
    ∧ (∀ j, s ≤ j → j ≤ e → (scanMin f s e).2 ≤ f j)
    ∧ (∀ j, s ≤ j → j < (scanMin f s e).1 → (scanMin f s e).2 < f j) := by
  obtain ⟨h1, h2, h3, h4⟩ := scanMinAux_spec f (e - s) s (s+1) (f s) rfl (by omega)
  unfold scanMin
  refine ⟨?_, ?_, h1, ?_, ?_⟩
  · rcases h2 with ⟨ha, _⟩ | ⟨ha, _, _⟩ <;> omega
  · rcases h2 with ⟨ha, _⟩ | ⟨ha, hb, _⟩ <;> omega
  · intro j hj1 hj2
    rcases Nat.eq_or_lt_of_le hj1 with rfl | hj1
    · rcases h2 with ⟨ha, hb⟩ | ⟨ha, hb, hc⟩
      · rw [hb]
      · linarith
    · exact h3 j (by omega) (by omega)
  · intro j hj1 hj2
    rcases Nat.eq_or_lt_of_le hj1 with rfl | hj1
    · rcases h2 with ⟨ha, hb⟩ | ⟨ha, hb, hc⟩
      · omega
      · exact hc
    · exact h4 j (by omega) hj2

/-- C2: with the default uniform weights and enough price points, the
selection loop of `get_agile_period` returns a candidate start slot inside
`[start_i, end_i]` whose (rounded, as computed) weighted average price is
less than or equal to that of every candidate in bounds, and every earlier
candidate has a strictly larger weighted average — i.e. ties resolve to
the earliest start slot. -/
theorem C2_agile_optimal (prices : List ℚ) (span s e : ℕ)
    (hse : s ≤ e) (hlen : e + span ≤ prices.length) :
    s ≤ (agile_best prices none span s e).1
    ∧ (agile_best prices none span s e).1 ≤ e
    ∧ (agile_best prices none span s e).2
        = wavg prices (List.replicate span 1) span (agile_best prices none span s e).1
    ∧ (∀ j, s ≤ j → j ≤ e →
        (agile_best prices none span s e).2 ≤ wavg prices (List.replicate span 1) span j)
    ∧ (∀ j, s ≤ j → j < (agile_best prices none span s e).1 →
        (agile_best prices none span s e).2 < wavg prices (List.replicate span 1) span j) := by
  have hab : agile_best prices none span s e
      = scanMin (fun i => wavg prices (List.replicate span 1) span i) s e := by
    simp only [agile_best, agile_weights]
    rw [if_neg (by omega)]
  rw [hab]
  exact scanMin_spec (fun i => wavg prices (List.replicate span 1) span i) s e hse

/-- Witness for C2: the optimality property at the spec's Scenario A shape:
six 10 p slots followed by cheaper 5 p slots, a 3 h window (span 6),
bounds `[0, 12]`. -/
theorem C2_witness :
    0 ≤ 12 ∧ 12 + 6 ≤ (List.replicate 6 (10:ℚ) ++ List.replicate 12 (5:ℚ)).length ∧
      (0 ≤ (agile_best (List.replicate 6 (10:ℚ) ++ List.replicate 12 (5:ℚ)) none 6 0 12).1
      ∧ (agile_best (List.replicate 6 (10:ℚ) ++ List.replicate 12 (5:ℚ)) none 6 0 12).1 ≤ 12
      ∧ (agile_best (List.replicate 6 (10:ℚ) ++ List.replicate 12 (5:ℚ)) none 6 0 12).2
          = wavg (List.replicate 6 (10:ℚ) ++ List.replicate 12 (5:ℚ)) (List.replicate 6 1) 6
              (agile_best (List.replicate 6 (10:ℚ) ++ List.replicate 12 (5:ℚ)) none 6 0 12).1
      ∧ (∀ j, 0 ≤ j → j ≤ 12 →
          (agile_best (List.replicate 6 (10:ℚ) ++ List.replicate 12 (5:ℚ)) none 6 0 12).2
            ≤ wavg (List.replicate 6 (10:ℚ) ++ List.replicate 12 (5:ℚ)) (List.replicate 6 1) 6 j)
      ∧ (∀ j, 0 ≤ j →
          j < (agile_best (List.replicate 6 (10:ℚ) ++ List.replicate 12 (5:ℚ)) none 6 0 12).1 →
          (agile_best (List.replicate 6 (10:ℚ) ++ List.replicate 12 (5:ℚ)) none 6 0 12).2
            < wavg (List.replicate 6 (10:ℚ) ++ List.replicate 12 (5:ℚ)) (List.replicate 6 1) 6 j)) :=
  ⟨by norm_num, by simp,
    C2_agile_optimal (List.replicate 6 (10:ℚ) ++ List.replicate 12 (5:ℚ)) 6 0 12
      (by norm_num) (by simp)⟩
